import Mathlib

set_option maxRecDepth 20000
set_option maxHeartbeats 1000000

/-!
Verification of the auto-link matcher module
(`components/lexical/plugins/auto-link/AutoLinkMatchers`): four
matchers (Replay recording links, GitHub issue/PR links, emails,
generic URLs) composed into a priority-ordered registry.  The matcher
implementations are modelled from the specification (sections 3-4 and 8),
since only their test suite is part of the reviewed sources; the test
suite's expected inputs/outputs are used as concrete checkpoints.
-/

/-- Result of a successful match: an absolute URL plus an optional
human-readable label. -/
structure LinkMatch where
  url : String
  formattedText : Option String
deriving DecidableEq

/-- Whitespace characters used to isolate word-like tokens. -/
def isWsChar (c : Char) : Bool :=
  c = ' ' || c = '\t' || c = '\n' || c = '\r'

/-- Sentence punctuation that must not be captured at the end of a match. -/
def isTrailingPunct (c : Char) : Bool :=
  c = '.' || c = ',' || c = '!'

/-- Split a character list into maximal whitespace-free tokens. -/
def splitWsAux : List Char → List Char → List (List Char)
  | [], acc => if acc = [] then [] else [acc.reverse]
  | c :: cs, acc =>
    if isWsChar c then
      if acc = [] then splitWsAux cs [] else acc.reverse :: splitWsAux cs []
    else
      splitWsAux cs (c :: acc)

/-- Tokenize a string into whitespace-separated tokens. -/
def tokenize (s : String) : List (List Char) :=
  splitWsAux s.data []

/-- Remove trailing sentence punctuation from a token. -/
def stripTrailing (cs : List Char) : List Char :=
  (cs.reverse.dropWhile isTrailingPunct).reverse

/-- Remove a literal pattern from the front of a list, or fail. -/
def dropPrefixL : List Char → List Char → Option (List Char)
  | [], cs => some cs
  | _ :: _, [] => none
  | p :: ps, c :: cs => if p = c then dropPrefixL ps cs else none

/-- Whether the pattern is a prefix of the list. -/
def startsWithL (pat cs : List Char) : Bool :=
  (dropPrefixL pat cs).isSome

/-- Split on every occurrence of a separator character (auxiliary). -/
def splitOnCharAux (sep : Char) : List Char → List Char → List (List Char)
  | [], acc => [acc.reverse]
  | c :: cs, acc =>
    if c = sep then acc.reverse :: splitOnCharAux sep cs []
    else splitOnCharAux sep cs (c :: acc)

/-- Split on every occurrence of a separator character. -/
def splitOnChar (sep : Char) (cs : List Char) : List (List Char) :=
  splitOnCharAux sep cs []

/-- Split at the first occurrence of a separator: the part before it and,
when the separator occurs, the part after it. -/
def breakAtChar (sep : Char) : List Char → List Char × Option (List Char)
  | [] => ([], none)
  | c :: cs =>
    if c = sep then ([], some cs)
    else
      let r := breakAtChar sep cs
      (c :: r.1, r.2)

def isAlphaNumChar (c : Char) : Bool := c.isAlpha || c.isDigit

/-- Characters allowed in the local part of an email address. -/
def isLocalChar (c : Char) : Bool :=
  isAlphaNumChar c || c = '.' || c = '_' || c = '-'

/-- Characters allowed in a host label. -/
def isLabelChar (c : Char) : Bool := isAlphaNumChar c || c = '-'

def isHostChar (c : Char) : Bool := isLabelChar c || c = '.'

def isHexChar (c : Char) : Bool :=
  c.isDigit || ('a' ≤ c && c ≤ 'f') || ('A' ≤ c && c ≤ 'F')

def isDigits (cs : List Char) : Bool :=
  !cs.isEmpty && cs.all Char.isDigit

/-- Non-empty local part over letters, digits, dot, underscore, hyphen. -/
def validLocal (cs : List Char) : Bool :=
  !cs.isEmpty && cs.all isLocalChar

/-- Non-empty host label over letters, digits, hyphen. -/
def validLabel (cs : List Char) : Bool :=
  !cs.isEmpty && cs.all isLabelChar

/-- Dotted domain: at least two dot-separated valid labels. -/
def validDomain (cs : List Char) : Bool :=
  let labels := splitOnChar '.' cs
  decide (2 ≤ labels.length) && labels.all validLabel

/-- Host made of one or more dot-separated valid labels. -/
def validHost (cs : List Char) : Bool :=
  (splitOnChar '.' cs).all validLabel

/-- A valid host followed by nothing, a path, or a query string. -/
def hostAndRest (cs : List Char) : Bool :=
  validHost (cs.takeWhile isHostChar) &&
    (match cs.dropWhile isHostChar with
     | [] => true
     | c :: _ => c = '/' || c = '?')

/-- Modelled from the spec (section 4.3 output rule of the missing
AutoLinkMatchers implementation): keep a scheme-qualified token verbatim,
otherwise synthesize an `https://` prefix. -/
def normalizeUrl (cs : List Char) : String :=
  if startsWithL "http".data cs then String.mk cs
  else String.mk ("https://".data ++ cs)

/-- Modelled from the spec (section 4.2, the missing AutoLinkMatchers
implementation): match a token of shape local@domain.tld and produce a
mailto link with no formatted text. -/
def emailMatchToken (cs : List Char) : Option LinkMatch :=
  match splitOnChar '@' cs with
  | [l, d] =>
    if validLocal l && validDomain d then
      some ⟨String.mk ("mailto:".data ++ cs), none⟩
    else none
  | _ => none

/-- Modelled from the spec (section 4.3, the missing AutoLinkMatchers
implementation): match a scheme-qualified or www.-prefixed URL token;
bare domains are rejected. -/
def genericMatchToken (cs : List Char) : Option LinkMatch :=
  if (startsWithL "http://".data cs && hostAndRest (cs.drop 7))
      || (startsWithL "https://".data cs && hostAndRest (cs.drop 8))
      || (startsWithL "www.".data cs && hostAndRest cs) then
    some ⟨normalizeUrl cs, none⟩
  else none

/-- Remove a leading `https://` or `http://` scheme if present. -/
def dropScheme (cs : List Char) : List Char :=
  match dropPrefixL "https://".data cs with
  | some rest => rest
  | none =>
    match dropPrefixL "http://".data cs with
    | some rest => rest
    | none => cs

/-- Remove a leading `www.` if present. -/
def dropWww (cs : List Char) : List Char :=
  match dropPrefixL "www.".data cs with
  | some rest => rest
  | none => cs

/-- Modelled from the spec (section 4.4, the missing AutoLinkMatchers
implementation): match github.com/{owner}/{repo}/issues|pull/{number}
with optional extra path segments or query string, producing
"#{number} ({owner}/{repo})". -/
def githubMatchToken (cs : List Char) : Option LinkMatch :=
  match dropPrefixL "github.com".data (dropWww (dropScheme cs)) with
  | none => none
  | some rest =>
    match (breakAtChar '?' rest).1 with
    | '/' :: p =>
      match splitOnChar '/' p with
      | owner :: repo :: kind :: num :: _ =>
        if (kind = "issues".data || kind = "pull".data)
            && !owner.isEmpty && !repo.isEmpty && isDigits num then
          some ⟨normalizeUrl cs,
            some (String.mk ("#".data ++ num ++ " (".data ++ owner
              ++ "/".data ++ repo ++ ")".data))⟩
        else none
      | _ => none
    | _ => none

/-- Split at the first double-hyphen occurrence: the part before it and
the part after it, or none when there is no double hyphen. -/
def breakAtDD : List Char → Option (List Char × List Char)
  | [] => none
  | [_] => none
  | c1 :: c2 :: cs =>
    if c1 = '-' && c2 = '-' then some ([], cs)
    else
      match breakAtDD (c2 :: cs) with
      | some (a, b) => some (c1 :: a, b)
      | none => none

/-- UUID shape: five hyphen-separated non-empty hex groups. -/
def isUuid (cs : List Char) : Bool :=
  let groups := splitOnChar '-' cs
  groups.length = 5 && groups.all (fun g => !g.isEmpty && g.all isHexChar)

/-- Modelled from the spec (section 4.5, the missing AutoLinkMatchers
implementation): decide a recording slug of shape {title}--{uuid} and
produce "Replay: {title with hyphens as spaces}". -/
def replaySlug (cs slug : List Char) : Option LinkMatch :=
  if slug.contains '/' then none
  else
    match breakAtDD slug with
    | some (title, uuid) =>
      if isUuid uuid && !title.isEmpty then
        some ⟨normalizeUrl cs,
          some (String.mk ("Replay: ".data
            ++ title.map (fun c => if c = '-' then ' ' else c)))⟩
      else none
    | none => none

/-- Modelled from the spec (section 4.5, the missing AutoLinkMatchers
implementation): match app.replay.io/recording/{title}--{uuid} with an
optional query string, producing "Replay: {title with hyphens as spaces}". -/
def replayMatchToken (cs : List Char) : Option LinkMatch :=
  match dropPrefixL "app.replay.io/recording/".data (dropScheme cs) with
  | none => none
  | some rest => replaySlug cs (breakAtChar '?' rest).1

/-- Try each token of the text in order with the given token matcher. -/
def firstSome (f : List Char → Option LinkMatch) :
    List (List Char) → Option LinkMatch
  | [] => none
  | t :: ts =>
    match f t with
    | some m => some m
    | none => firstSome f ts

/-- Run a token matcher over a whole text: tokenize, strip trailing
punctuation, return the first token-level match. -/
def runMatcher (f : List Char → Option LinkMatch) (text : String) :
    Option LinkMatch :=
  firstSome (fun t => f (stripTrailing t)) (tokenize text)

/-- Modelled from the spec (section 4.2): the email matcher of the missing
AutoLinkMatchers module. -/
def EmailUrlMatcher (text : String) : Option LinkMatch :=
  runMatcher emailMatchToken text

/-- Modelled from the spec (section 4.3): the generic URL matcher of the
missing AutoLinkMatchers module. -/
def GenericUrlMatcher (text : String) : Option LinkMatch :=
  runMatcher genericMatchToken text

/-- Modelled from the spec (section 4.4): the GitHub issue/PR matcher of the
missing AutoLinkMatchers module. -/
def GitHubUrlMatcher (text : String) : Option LinkMatch :=
  runMatcher githubMatchToken text

/-- Modelled from the spec (section 4.5): the Replay recording matcher of the
missing AutoLinkMatchers module. -/
def ReplayUrlMatcher (text : String) : Option LinkMatch :=
  runMatcher replayMatchToken text

/-- Modelled from the spec (section 4.1): the fixed priority order of the
registry exported as MATCHERS_ARRAY by the missing AutoLinkMatchers module. -/
def MATCHERS_ARRAY : List (String → Option LinkMatch) :=
  [ReplayUrlMatcher, GitHubUrlMatcher, EmailUrlMatcher, GenericUrlMatcher]

/-- First non-null result of a list of matchers on a text. -/
def runRegistry : List (String → Option LinkMatch) → String → Option LinkMatch
  | [], _ => none
  | f :: fs, text =>
    match f text with
    | some m => some m
    | none => runRegistry fs text

/-- Modelled from the spec (section 4.1): the registry's match operation of
the missing AutoLinkMatchers module. -/
def registryMatch (text : String) : Option LinkMatch :=
  runRegistry MATCHERS_ARRAY text

/-- Whether a URL string carries one of the three produced schemes. -/
def schemeQualified (s : String) : Bool :=
  startsWithL "http://".data s.data || startsWithL "https://".data s.data
    || startsWithL "mailto:".data s.data

theorem dropPrefixL_eq_some (pat : List Char) :
    ∀ cs r, dropPrefixL pat cs = some r ↔ cs = pat ++ r := by
  induction pat with
  | nil => intro cs r; simp [dropPrefixL]
  | cons p ps ih =>
    intro cs r
    cases cs with
    | nil => simp [dropPrefixL]
    | cons c cs =>
      by_cases h : p = c
      · subst h
        simp [dropPrefixL, ih]
      · simp only [dropPrefixL, if_neg h]
        simp only [List.cons_append, List.cons.injEq]
        constructor
        · intro hfalse; exact absurd hfalse (by simp)
        · intro ⟨h1, _⟩; exact absurd h1.symm h

theorem dropPrefixL_append_self (pat rest : List Char) :
    dropPrefixL pat (pat ++ rest) = some rest :=
  (dropPrefixL_eq_some pat _ rest).mpr rfl

theorem dropPrefixL_none_append (pat : List Char) :
    ∀ cs x, pat.length ≤ cs.length → dropPrefixL pat cs = none →
      dropPrefixL pat (cs ++ x) = none := by
  induction pat with
  | nil => intro cs x _ h; simp [dropPrefixL] at h
  | cons p ps ih =>
    intro cs x hlen h
    cases cs with
    | nil => simp at hlen
    | cons c cs =>
      simp only [dropPrefixL] at h ⊢
      by_cases hpc : p = c
      · rw [if_pos hpc] at h ⊢
        exact ih cs x (Nat.succ_le_succ_iff.mp (by simpa using hlen)) h
      · rw [if_neg hpc]

theorem startsWithL_append_self (pat rest : List Char) :
    startsWithL pat (pat ++ rest) = true := by
  simp [startsWithL, dropPrefixL_append_self]

theorem startsWithL_iff (pat cs : List Char) :
    startsWithL pat cs = true ↔ ∃ rest, cs = pat ++ rest := by
  simp only [startsWithL, Option.isSome_iff_exists]
  constructor
  · intro ⟨r, hr⟩; exact ⟨r, (dropPrefixL_eq_some pat cs r).mp hr⟩
  · intro ⟨r, hr⟩; exact ⟨r, (dropPrefixL_eq_some pat cs r).mpr hr⟩

theorem splitOnCharAux_ne_nil (sep : Char) :
    ∀ cs acc, splitOnCharAux sep cs acc ≠ [] := by
  intro cs
  induction cs with
  | nil => intro acc; simp [splitOnCharAux]
  | cons c cs ih =>
    intro acc
    simp only [splitOnCharAux]
    by_cases h : c = sep
    · simp [h]
    · rw [if_neg h]; exact ih _

theorem splitOnCharAux_no_sep (sep : Char) :
    ∀ cs acc, sep ∉ cs →
      splitOnCharAux sep cs acc = [acc.reverse ++ cs] := by
  intro cs
  induction cs with
  | nil => intro acc _; simp [splitOnCharAux]
  | cons c cs ih =>
    intro acc h
    simp only [List.mem_cons, not_or] at h
    simp only [splitOnCharAux]
    rw [if_neg (fun hh => h.1 hh.symm)]
    rw [ih (c :: acc) h.2]
    simp

theorem splitOnCharAux_sep_append (sep : Char) :
    ∀ a rest acc, sep ∉ a →
      splitOnCharAux sep (a ++ sep :: rest) acc
        = (acc.reverse ++ a) :: splitOnCharAux sep rest [] := by
  intro a
  induction a with
  | nil => intro rest acc _; simp [splitOnCharAux]
  | cons c cs ih =>
    intro rest acc h
    simp only [List.mem_cons, not_or] at h
    simp only [List.cons_append, splitOnCharAux, List.append_eq]
    rw [if_neg (fun hh => h.1 hh.symm)]
    rw [ih rest (c :: acc) h.2]
    simp

theorem splitOnCharAux_eq_singleton (sep : Char) :
    ∀ cs acc x, splitOnCharAux sep cs acc = [x] →
      acc.reverse ++ cs = x ∧ sep ∉ cs := by
  intro cs
  induction cs with
  | nil =>
    intro acc x h
    simp [splitOnCharAux] at h
    simp [h]
  | cons c cs ih =>
    intro acc x h
    simp only [splitOnCharAux] at h
    by_cases hc : c = sep
    · rw [if_pos hc] at h
      cases h' : splitOnCharAux sep cs [] with
      | nil => exact absurd h' (splitOnCharAux_ne_nil sep cs [])
      | cons y ys => rw [h'] at h; simp at h
    · rw [if_neg hc] at h
      obtain ⟨h1, h2⟩ := ih _ _ h
      refine ⟨by simpa using h1, ?_⟩
      simp only [List.mem_cons, not_or]
      exact ⟨fun hh => hc hh.symm, h2⟩

theorem splitOnCharAux_eq_pair (sep : Char) :
    ∀ cs acc a b, splitOnCharAux sep cs acc = [a, b] →
      acc.reverse ++ cs = a ++ sep :: b := by
  intro cs
  induction cs with
  | nil => intro acc a b h; simp [splitOnCharAux] at h
  | cons c cs ih =>
    intro acc a b h
    simp only [splitOnCharAux] at h
    by_cases hc : c = sep
    · rw [if_pos hc] at h
      cases h' : splitOnCharAux sep cs [] with
      | nil => exact absurd h' (splitOnCharAux_ne_nil sep cs [])
      | cons y ys =>
        rw [h'] at h
        have ha : acc.reverse = a ∧ y = b ∧ ys = [] := by simpa using h
        obtain ⟨ha1, ha2, ha3⟩ := ha
        rw [ha3] at h'
        obtain ⟨h1, _⟩ := splitOnCharAux_eq_singleton sep cs [] y h'
        simp only [List.reverse_nil, List.nil_append] at h1
        rw [hc, ← ha1, ← ha2, ← h1]
    · rw [if_neg hc] at h
      have := ih (c :: acc) a b h
      simpa using this

theorem splitOnChar_eq_pair (sep : Char) (cs a b : List Char)
    (h : splitOnChar sep cs = [a, b]) : cs = a ++ sep :: b := by
  have := splitOnCharAux_eq_pair sep cs [] a b h
  simpa using this

theorem splitOnChar_no_sep (sep : Char) (cs : List Char) (h : sep ∉ cs) :
    splitOnChar sep cs = [cs] := by
  have := splitOnCharAux_no_sep sep cs [] h
  simpa [splitOnChar] using this

theorem splitOnChar_sep_append (sep : Char) (a rest : List Char)
    (h : sep ∉ a) :
    splitOnChar sep (a ++ sep :: rest) = a :: splitOnChar sep rest := by
  have := splitOnCharAux_sep_append sep a rest [] h
  simpa [splitOnChar] using this

theorem mem_splitOnCharAux (sep ch : Char) :
    ∀ cs acc, (ch ∈ acc ∨ ch ∈ cs) → ch ≠ sep →
      ∃ part ∈ splitOnCharAux sep cs acc, ch ∈ part := by
  intro cs
  induction cs with
  | nil =>
    intro acc h _
    refine ⟨acc.reverse, by simp [splitOnCharAux], ?_⟩
    simp only [List.mem_reverse]
    exact h.resolve_right (by simp)
  | cons c cs ih =>
    intro acc h hne
    simp only [splitOnCharAux]
    by_cases hc : c = sep
    · rw [if_pos hc]
      rcases h with h | h
      · exact ⟨acc.reverse, by simp, by simpa using h⟩
      · rcases List.mem_cons.mp h with h | h
        · exact absurd (h.trans hc) hne
        · obtain ⟨part, hp1, hp2⟩ := ih [] (Or.inr h) hne
          exact ⟨part, by simp [hp1], hp2⟩
    · rw [if_neg hc]
      apply ih (c :: acc) _ hne
      rcases h with h | h
      · exact Or.inl (List.mem_cons_of_mem c h)
      · rcases List.mem_cons.mp h with h | h
        · exact Or.inl (h ▸ List.mem_cons_self c acc)
        · exact Or.inr h

theorem mem_splitOnChar (sep ch : Char) (cs : List Char)
    (h : ch ∈ cs) (hne : ch ≠ sep) :
    ∃ part ∈ splitOnChar sep cs, ch ∈ part :=
  mem_splitOnCharAux sep ch cs [] (Or.inr h) hne

theorem breakAtChar_no_sep (sep : Char) :
    ∀ cs, sep ∉ cs → breakAtChar sep cs = (cs, none) := by
  intro cs
  induction cs with
  | nil => intro _; simp [breakAtChar]
  | cons c cs ih =>
    intro h
    simp only [List.mem_cons, not_or] at h
    simp only [breakAtChar]
    rw [if_neg (fun hh => h.1 hh.symm), ih h.2]

theorem breakAtChar_sep_append (sep : Char) :
    ∀ a rest, sep ∉ a →
      breakAtChar sep (a ++ sep :: rest) = (a, some rest) := by
  intro a
  induction a with
  | nil => intro rest _; simp [breakAtChar]
  | cons c cs ih =>
    intro rest h
    simp only [List.mem_cons, not_or] at h
    simp only [List.cons_append, breakAtChar, List.append_eq]
    rw [if_neg (fun hh => h.1 hh.symm), ih rest h.2]

theorem startsWithL_of_extend (p q cs : List Char)
    (hpq : ∃ r, q = p ++ r) (h : startsWithL q cs = true) :
    startsWithL p cs = true := by
  obtain ⟨r, rfl⟩ := hpq
  obtain ⟨rest, hrest⟩ := (startsWithL_iff _ _).mp h
  rw [hrest, List.append_assoc]
  exact startsWithL_append_self p (r ++ rest)

theorem startsWithL_head_ne (p c : Char) (ps cs : List Char) (h : p ≠ c) :
    startsWithL (p :: ps) (c :: cs) = false := by
  simp [startsWithL, dropPrefixL, if_neg h]

theorem http_data_cons : "http".data = 'h' :: "ttp".data := rfl

theorem normalizeUrl_eq_of_http (cs : List Char)
    (h : startsWithL "http".data cs = true) :
    normalizeUrl cs = String.mk cs := by
  simp [normalizeUrl, h]

theorem normalizeUrl_eq_of_not_http (cs : List Char)
    (h : startsWithL "http".data cs = false) :
    normalizeUrl cs = String.mk ("https://".data ++ cs) := by
  simp [normalizeUrl, h]

theorem schemeQualified_normalizeUrl (cs : List Char)
    (h : startsWithL "https://".data cs = true
        ∨ startsWithL "http://".data cs = true
        ∨ startsWithL "http".data cs = false) :
    schemeQualified (normalizeUrl cs) = true := by
  rcases h with h | h | h
  · have hh : startsWithL "http".data cs = true :=
      startsWithL_of_extend _ _ cs ⟨"s://".data, rfl⟩ h
    rw [normalizeUrl_eq_of_http cs hh]
    simp only [schemeQualified, Bool.or_eq_true]
    exact Or.inl (Or.inr h)
  · have hh : startsWithL "http".data cs = true :=
      startsWithL_of_extend _ _ cs ⟨"://".data, rfl⟩ h
    rw [normalizeUrl_eq_of_http cs hh]
    simp only [schemeQualified, Bool.or_eq_true]
    exact Or.inl (Or.inl h)
  · rw [normalizeUrl_eq_of_not_http cs h]
    simp only [schemeQualified, Bool.or_eq_true]
    exact Or.inl (Or.inr (startsWithL_append_self _ _))

theorem validLocal_not_mem_at (l : List Char) (h : validLocal l = true) :
    '@' ∉ l := by
  intro hmem
  simp only [validLocal, Bool.and_eq_true, List.all_eq_true] at h
  exact absurd (h.2 '@' hmem) (by decide)

theorem validDomain_not_mem_at (d : List Char) (h : validDomain d = true) :
    '@' ∉ d := by
  intro hmem
  obtain ⟨part, hp, hcp⟩ := mem_splitOnChar '.' '@' d hmem (by decide)
  simp only [validDomain, Bool.and_eq_true, List.all_eq_true] at h
  have hpart := h.2 part hp
  simp only [validLabel, Bool.and_eq_true, List.all_eq_true] at hpart
  exact absurd (hpart.2 '@' hcp) (by decide)

theorem emailMatchToken_sound (cs : List Char) (m : LinkMatch)
    (h : emailMatchToken cs = some m) :
    m = ⟨String.mk ("mailto:".data ++ cs), none⟩
      ∧ ∃ l d, cs = l ++ '@' :: d ∧ validLocal l = true
          ∧ validDomain d = true := by
  unfold emailMatchToken at h
  split at h
  next l d heq =>
    split at h
    next hcond =>
      simp only [Option.some.injEq] at h
      simp only [Bool.and_eq_true] at hcond
      exact ⟨h.symm,
        l, d, splitOnChar_eq_pair '@' cs l d heq, hcond.1, hcond.2⟩
    next => exact absurd h (by simp)
  next => exact absurd h (by simp)

theorem emailMatchToken_complete (l d : List Char)
    (hl : validLocal l = true) (hd : validDomain d = true) :
    emailMatchToken (l ++ '@' :: d)
      = some ⟨String.mk ("mailto:".data ++ (l ++ '@' :: d)), none⟩ := by
  unfold emailMatchToken
  rw [splitOnChar_sep_append '@' l d (validLocal_not_mem_at l hl),
      splitOnChar_no_sep '@' d (validDomain_not_mem_at d hd)]
  simp [hl, hd]

theorem genericMatchToken_sound (cs : List Char) (m : LinkMatch)
    (h : genericMatchToken cs = some m) :
    m = ⟨normalizeUrl cs, none⟩
      ∧ (startsWithL "http://".data cs = true
          ∨ startsWithL "https://".data cs = true
          ∨ startsWithL "www.".data cs = true) := by
  unfold genericMatchToken at h
  split at h
  next hcond =>
    simp only [Option.some.injEq] at h
    simp only [Bool.or_eq_true, Bool.and_eq_true] at hcond
    refine ⟨h.symm, ?_⟩
    rcases hcond with (⟨h1, _⟩ | ⟨h1, _⟩) | ⟨h1, _⟩
    · exact Or.inl h1
    · exact Or.inr (Or.inl h1)
    · exact Or.inr (Or.inr h1)
  next => exact absurd h (by simp)

theorem dropScheme_cases (cs : List Char) :
    (∃ r, cs = "https://".data ++ r ∧ dropScheme cs = r)
    ∨ (∃ r, cs = "http://".data ++ r ∧ dropScheme cs = r)
    ∨ dropScheme cs = cs := by
  cases h1 : dropPrefixL "https://".data cs with
  | some r =>
    exact Or.inl ⟨r, (dropPrefixL_eq_some _ _ _).mp h1,
      by unfold dropScheme; rw [h1]⟩
  | none =>
    cases h2 : dropPrefixL "http://".data cs with
    | some r =>
      exact Or.inr (Or.inl ⟨r, (dropPrefixL_eq_some _ _ _).mp h2,
        by unfold dropScheme; rw [h1, h2]⟩)
    | none =>
      exact Or.inr (Or.inr (by unfold dropScheme; rw [h1, h2]))

theorem dropWww_cases (cs : List Char) :
    (∃ r, cs = "www.".data ++ r ∧ dropWww cs = r) ∨ dropWww cs = cs := by
  cases h1 : dropPrefixL "www.".data cs with
  | some r =>
    exact Or.inl ⟨r, (dropPrefixL_eq_some _ _ _).mp h1,
      by unfold dropWww; rw [h1]⟩
  | none => exact Or.inr (by unfold dropWww; rw [h1])

theorem githubMatchToken_sound (cs : List Char) (m : LinkMatch)
    (h : githubMatchToken cs = some m) :
    ∃ owner repo num,
      owner ≠ [] ∧ repo ≠ [] ∧ isDigits num = true
      ∧ m.url = normalizeUrl cs
      ∧ m.formattedText = some (String.mk ("#".data ++ num ++ " (".data
          ++ owner ++ "/".data ++ repo ++ ")".data)) := by
  unfold githubMatchToken at h
  split at h
  next => exact absurd h (by simp)
  next rest heq =>
    split at h
    next p hp =>
      split at h
      next owner repo kind num extra hsplit =>
        split at h
        next hcond =>
          simp only [Option.some.injEq] at h
          subst h
          simp only [Bool.and_eq_true] at hcond
          refine ⟨owner, repo, num, ?_, ?_, hcond.2, rfl, rfl⟩
          · intro hnil; rw [hnil] at hcond; simp at hcond
          · intro hnil; rw [hnil] at hcond; simp at hcond
        next => exact absurd h (by simp)
      next => exact absurd h (by simp)
    next => exact absurd h (by simp)

theorem githubMatchToken_prefix (cs : List Char) (m : LinkMatch)
    (h : githubMatchToken cs = some m) :
    schemeQualified (normalizeUrl cs) = true := by
  unfold githubMatchToken at h
  split at h
  next => exact absurd h (by simp)
  next rest heq =>
    rcases dropScheme_cases cs with ⟨r, hcs, _⟩ | ⟨r, hcs, _⟩ | hid
    · exact schemeQualified_normalizeUrl cs
        (Or.inl (by rw [hcs]; exact startsWithL_append_self _ _))
    · exact schemeQualified_normalizeUrl cs
        (Or.inr (Or.inl (by rw [hcs]; exact startsWithL_append_self _ _)))
    · rcases dropWww_cases cs with ⟨r, hcs, _⟩ | hww
      · apply schemeQualified_normalizeUrl cs (Or.inr (Or.inr ?_))
        rw [hcs, show "www.".data ++ r = 'w' :: ("ww.".data ++ r) from rfl,
            http_data_cons]
        exact startsWithL_head_ne 'h' 'w' _ _ (by decide)
      · rw [hid, hww] at heq
        have hcs := (dropPrefixL_eq_some _ _ _).mp heq
        apply schemeQualified_normalizeUrl cs (Or.inr (Or.inr ?_))
        rw [hcs, show "github.com".data ++ rest
              = 'g' :: ("ithub.com".data ++ rest) from rfl, http_data_cons]
        exact startsWithL_head_ne 'h' 'g' _ _ (by decide)

theorem breakAtDD_eq_some : ∀ cs t u, breakAtDD cs = some (t, u) →
    cs = t ++ '-' :: '-' :: u := by
  intro cs
  induction cs using breakAtDD.induct with
  | case1 => intro t u h; simp [breakAtDD] at h
  | case2 c => intro t u h; simp [breakAtDD] at h
  | case3 c1 c2 cs hdd =>
    intro t u h
    simp only [breakAtDD, if_pos hdd] at h
    simp only [Option.some.injEq, Prod.mk.injEq] at h
    obtain ⟨h1, h2⟩ := h
    simp only [Bool.and_eq_true, decide_eq_true_eq] at hdd
    rw [← h1, ← h2, hdd.1, hdd.2]
    rfl
  | case4 c1 c2 cs hdd a b hab ih =>
    intro t u h
    simp only [breakAtDD] at h
    rw [if_neg hdd] at h
    simp only [hab, Option.some.injEq, Prod.mk.injEq] at h
    obtain ⟨h1, h2⟩ := h
    rw [← h1, ← h2, List.cons_append, ← ih a b hab]
  | case5 c1 c2 cs hdd hnone =>
    intro t u h
    simp only [breakAtDD] at h
    rw [if_neg hdd] at h
    simp [hnone] at h

theorem replaySlug_sound (cs slug : List Char) (m : LinkMatch)
    (h : replaySlug cs slug = some m) :
    ∃ title uuid, slug = title ++ '-' :: '-' :: uuid
      ∧ isUuid uuid = true ∧ title ≠ []
      ∧ m.url = normalizeUrl cs
      ∧ m.formattedText = some (String.mk ("Replay: ".data
          ++ title.map (fun c => if c = '-' then ' ' else c))) := by
  unfold replaySlug at h
  split at h
  next => exact absurd h (by simp)
  next hslash =>
    split at h
    next title uuid hbr =>
      split at h
      next hcond =>
        simp only [Option.some.injEq] at h
        subst h
        simp only [Bool.and_eq_true] at hcond
        refine ⟨title, uuid, breakAtDD_eq_some slug title uuid hbr,
          hcond.1, ?_, rfl, rfl⟩
        intro hnil
        rw [hnil] at hcond
        simp at hcond
      next => exact absurd h (by simp)
    next => exact absurd h (by simp)

theorem replayMatchToken_sound (cs : List Char) (m : LinkMatch)
    (h : replayMatchToken cs = some m) :
    ∃ rest title uuid,
      dropScheme cs = "app.replay.io/recording/".data ++ rest
      ∧ (breakAtChar '?' rest).1 = title ++ '-' :: '-' :: uuid
      ∧ isUuid uuid = true ∧ title ≠ []
      ∧ m.url = normalizeUrl cs
      ∧ m.formattedText = some (String.mk ("Replay: ".data
          ++ title.map (fun c => if c = '-' then ' ' else c))) := by
  unfold replayMatchToken at h
  split at h
  next => exact absurd h (by simp)
  next rest heq =>
    obtain ⟨title, uuid, h1, h2, h3, h4, h5⟩ := replaySlug_sound cs _ m h
    exact ⟨rest, title, uuid, (dropPrefixL_eq_some _ _ _).mp heq,
      h1, h2, h3, h4, h5⟩

theorem replayMatchToken_prefix (cs : List Char) (m : LinkMatch)
    (h : replayMatchToken cs = some m) :
    schemeQualified (normalizeUrl cs) = true := by
  unfold replayMatchToken at h
  split at h
  next => exact absurd h (by simp)
  next rest heq =>
    rcases dropScheme_cases cs with ⟨r, hcs, _⟩ | ⟨r, hcs, _⟩ | hid
    · exact schemeQualified_normalizeUrl cs
        (Or.inl (by rw [hcs]; exact startsWithL_append_self _ _))
    · exact schemeQualified_normalizeUrl cs
        (Or.inr (Or.inl (by rw [hcs]; exact startsWithL_append_self _ _)))
    · rw [hid] at heq
      have hcs := (dropPrefixL_eq_some _ _ _).mp heq
      apply schemeQualified_normalizeUrl cs (Or.inr (Or.inr ?_))
      rw [hcs, show "app.replay.io/recording/".data ++ rest
            = 'a' :: ("pp.replay.io/recording/".data ++ rest) from rfl,
          http_data_cons]
      exact startsWithL_head_ne 'h' 'a' _ _ (by decide)

theorem emailMatchToken_url (cs : List Char) (m : LinkMatch)
    (h : emailMatchToken cs = some m) : schemeQualified m.url = true := by
  obtain ⟨hm, -⟩ := emailMatchToken_sound cs m h
  subst hm
  simp only [schemeQualified, Bool.or_eq_true]
  exact Or.inr (startsWithL_append_self _ _)

theorem genericMatchToken_url (cs : List Char) (m : LinkMatch)
    (h : genericMatchToken cs = some m) : schemeQualified m.url = true := by
  obtain ⟨hm, hpre⟩ := genericMatchToken_sound cs m h
  subst hm
  show schemeQualified (normalizeUrl cs) = true
  apply schemeQualified_normalizeUrl
  rcases hpre with h1 | h1 | h1
  · exact Or.inr (Or.inl h1)
  · exact Or.inl h1
  · obtain ⟨rest, hrest⟩ := (startsWithL_iff _ _).mp h1
    refine Or.inr (Or.inr ?_)
    rw [hrest, show "www.".data ++ rest = 'w' :: ("ww.".data ++ rest) from rfl,
        http_data_cons]
    exact startsWithL_head_ne 'h' 'w' _ _ (by decide)

theorem githubMatchToken_url (cs : List Char) (m : LinkMatch)
    (h : githubMatchToken cs = some m) : schemeQualified m.url = true := by
  obtain ⟨o, r, n, _, _, _, hurl, _⟩ := githubMatchToken_sound cs m h
  rw [hurl]
  exact githubMatchToken_prefix cs m h

theorem replayMatchToken_url (cs : List Char) (m : LinkMatch)
    (h : replayMatchToken cs = some m) : schemeQualified m.url = true := by
  obtain ⟨rest, t, u, _, _, _, _, hurl, _⟩ := replayMatchToken_sound cs m h
  rw [hurl]
  exact replayMatchToken_prefix cs m h

theorem firstSome_eq_some (f : List Char → Option LinkMatch) :
    ∀ ts m, firstSome f ts = some m → ∃ t ∈ ts, f t = some m := by
  intro ts
  induction ts with
  | nil => intro m h; simp [firstSome] at h
  | cons t ts ih =>
    intro m h
    simp only [firstSome] at h
    cases hf : f t with
    | some x =>
      simp only [hf] at h
      exact ⟨t, List.mem_cons_self t ts, by rw [hf, h]⟩
    | none =>
      simp only [hf] at h
      obtain ⟨u, hu1, hu2⟩ := ih m h
      exact ⟨u, List.mem_cons_of_mem t hu1, hu2⟩

theorem runMatcher_eq_some (f : List Char → Option LinkMatch) (text : String)
    (m : LinkMatch) (h : runMatcher f text = some m) :
    ∃ t, f (stripTrailing t) = some m := by
  unfold runMatcher at h
  obtain ⟨t, _, ht⟩ := firstSome_eq_some _ _ m h
  exact ⟨t, ht⟩

theorem runRegistry_cons (f : String → Option LinkMatch)
    (fs : List (String → Option LinkMatch)) (text : String) :
    runRegistry (f :: fs) text
      = match f text with
        | some m => some m
        | none => runRegistry fs text := rfl

theorem registryMatch_cases (text : String) (m : LinkMatch)
    (h : registryMatch text = some m) :
    ReplayUrlMatcher text = some m ∨ GitHubUrlMatcher text = some m
    ∨ EmailUrlMatcher text = some m ∨ GenericUrlMatcher text = some m := by
  unfold registryMatch MATCHERS_ARRAY at h
  rw [runRegistry_cons] at h
  cases h1 : ReplayUrlMatcher text with
  | some x => rw [h1] at h; exact Or.inl h
  | none =>
    simp only [h1] at h
    rw [runRegistry_cons] at h
    cases h2 : GitHubUrlMatcher text with
    | some x => rw [h2] at h; exact Or.inr (Or.inl h)
    | none =>
      simp only [h2] at h
      rw [runRegistry_cons] at h
      cases h3 : EmailUrlMatcher text with
      | some x => rw [h3] at h; exact Or.inr (Or.inr (Or.inl h))
      | none =>
        simp only [h3] at h
        rw [runRegistry_cons] at h
        cases h4 : GenericUrlMatcher text with
        | some x =>
          rw [h4] at h
          exact Or.inr (Or.inr (Or.inr h))
        | none =>
          simp only [h4] at h
          exact absurd h (by simp [runRegistry])

theorem splitWsAux_wsfree :
    ∀ t acc, (∀ c ∈ t, isWsChar c = false) →
      splitWsAux t acc
        = if acc.reverse ++ t = [] then [] else [acc.reverse ++ t] := by
  intro t
  induction t with
  | nil =>
    intro acc _
    simp only [splitWsAux, List.append_nil]
    by_cases h : acc = []
    · simp [h]
    · rw [if_neg h, if_neg (by simp [h])]
  | cons c cs ih =>
    intro acc h
    have hc : isWsChar c = false := h c (List.mem_cons_self c cs)
    have hcs : ∀ x ∈ cs, isWsChar x = false :=
      fun x hx => h x (List.mem_cons_of_mem c hx)
    simp only [splitWsAux, hc]
    rw [if_neg (by decide), ih (c :: acc) hcs]
    simp [List.append_assoc]

theorem splitWsAux_token_space :
    ∀ t ys acc, (∀ c ∈ t, isWsChar c = false) →
      splitWsAux (t ++ ' ' :: ys) acc
        = if acc.reverse ++ t = [] then splitWsAux ys []
          else (acc.reverse ++ t) :: splitWsAux ys [] := by
  intro t
  induction t with
  | nil =>
    intro ys acc _
    simp only [List.nil_append, splitWsAux]
    rw [if_pos (show isWsChar ' ' = true from rfl)]
    simp only [List.append_nil]
    by_cases h : acc = []
    · simp [h]
    · rw [if_neg h, if_neg (by simp [h])]
  | cons c cs ih =>
    intro ys acc h
    have hc : isWsChar c = false := h c (List.mem_cons_self c cs)
    have hcs : ∀ x ∈ cs, isWsChar x = false :=
      fun x hx => h x (List.mem_cons_of_mem c hx)
    simp only [List.cons_append, splitWsAux, hc, List.append_eq]
    rw [if_neg (by decide), ih ys (c :: acc) hcs]
    simp [List.append_assoc]

theorem tokenize_wsfree (t : String)
    (hws : ∀ c ∈ t.data, isWsChar c = false) :
    tokenize t = if t.data = [] then [] else [t.data] := by
  unfold tokenize
  rw [splitWsAux_wsfree t.data [] hws]
  simp

theorem tokenize_before (t : String) :
    tokenize ("before " ++ t) = "before".data :: tokenize t := by
  unfold tokenize
  rw [String.data_append,
      show "before ".data ++ t.data = "before".data ++ ' ' :: t.data from rfl,
      splitWsAux_token_space "before".data t.data [] (by decide),
      if_neg (by decide)]
  simp

theorem tokenize_after (t : String)
    (hws : ∀ c ∈ t.data, isWsChar c = false) :
    tokenize (t ++ " after") = tokenize t ++ ["after".data] := by
  unfold tokenize
  rw [String.data_append,
      show t.data ++ " after".data = t.data ++ ' ' :: "after".data from rfl,
      splitWsAux_token_space t.data "after".data [] hws,
      splitWsAux_wsfree t.data [] hws]
  by_cases h : t.data = []
  · rw [if_pos (by simp [h]), if_pos (by simp [h])]
    decide
  · rw [if_neg (by simp [h]), if_neg (by simp [h])]
    rw [show splitWsAux "after".data [] = ["after".data] from by decide]
    simp

theorem tokenize_before_after (t : String)
    (hws : ∀ c ∈ t.data, isWsChar c = false) :
    tokenize ("before " ++ t ++ " after")
      = "before".data :: (tokenize t ++ ["after".data]) := by
  have hdata : ("before " ++ t ++ " after").data
      = "before ".data ++ (t ++ " after").data := by
    rw [String.data_append, String.data_append, String.data_append,
      List.append_assoc]
  show splitWsAux ("before " ++ t ++ " after").data [] = _
  rw [hdata,
      show "before ".data ++ (t ++ " after").data
        = "before".data ++ ' ' :: (t ++ " after").data from rfl,
      splitWsAux_token_space "before".data _ [] (by decide),
      if_neg (by decide)]
  have := tokenize_after t hws
  unfold tokenize at this
  rw [this]
  simp only [List.reverse_nil, List.nil_append]
  rfl

theorem firstSome_cons_none (f : List Char → Option LinkMatch)
    (t : List Char) (ts : List (List Char)) (h : f t = none) :
    firstSome f (t :: ts) = firstSome f ts := by
  simp [firstSome, h]

theorem firstSome_append_none (f : List Char → Option LinkMatch)
    (ts : List (List Char)) (y : List Char) (hy : f y = none) :
    firstSome f (ts ++ [y]) = firstSome f ts := by
  induction ts with
  | nil => simp [firstSome, hy]
  | cons x xs ih =>
    simp only [List.cons_append, firstSome]
    cases hx : f x with
    | some m => rfl
    | none => exact ih

theorem stripTrailing_append_punct (cs : List Char) (c : Char)
    (h : isTrailingPunct c = true) :
    stripTrailing (cs ++ [c]) = stripTrailing cs := by
  unfold stripTrailing
  rw [List.reverse_append]
  simp [List.dropWhile_cons, h]

theorem firstSome_single (f : List Char → Option LinkMatch) (x : List Char) :
    firstSome f [x] = f x := by
  cases hx : f x <;> simp [firstSome, hx]

theorem tokenize_punct (t p : String)
    (hws : ∀ x ∈ t.data, isWsChar x = false)
    (hp : ∀ x ∈ p.data, isWsChar x = false) (hpne : p.data ≠ []) :
    tokenize (t ++ p) = [t.data ++ p.data] := by
  unfold tokenize
  rw [String.data_append]
  rw [splitWsAux_wsfree (t.data ++ p.data) [] ?_]
  · rw [if_neg ?_]
    · simp
    · intro hh
      simp only [List.reverse_nil, List.nil_append] at hh
      exact hpne (List.append_eq_nil.mp hh).2
  · intro x hx
    rcases List.mem_append.mp hx with h | h
    · exact hws x h
    · exact hp x h

theorem isTrailingPunct_not_ws (c : Char) (h : isTrailingPunct c = true) :
    isWsChar c = false := by
  unfold isTrailingPunct at h
  simp only [Bool.or_eq_true, decide_eq_true_eq] at h
  rcases h with (h | h) | h <;> rw [h] <;> rfl

theorem runMatcher_wrap (f : List Char → Option LinkMatch)
    (hb : f "before".data = none) (ha : f "after".data = none)
    (hemp : f [] = none)
    (t : String) (hws : ∀ c ∈ t.data, isWsChar c = false) :
    runMatcher f ("before " ++ t) = runMatcher f t
    ∧ runMatcher f ("before " ++ t ++ " after") = runMatcher f t
    ∧ runMatcher f (t ++ " after") = runMatcher f t
    ∧ runMatcher f (t ++ ",") = runMatcher f t
    ∧ runMatcher f (t ++ "!") = runMatcher f t := by
  have hgb : (fun tok => f (stripTrailing tok)) "before".data = none := hb
  have hga : (fun tok => f (stripTrailing tok)) "after".data = none := ha
  have hpunct : ∀ c : Char, isTrailingPunct c = true →
      runMatcher f (t ++ String.mk [c]) = runMatcher f t := by
    intro c hc
    show firstSome (fun tok => f (stripTrailing tok))
        (tokenize (t ++ String.mk [c])) = _
    rw [tokenize_punct t (String.mk [c]) hws
        (by
          show ∀ x ∈ [c], isWsChar x = false
          intro x hx
          simp only [List.mem_singleton] at hx
          rw [hx]
          exact isTrailingPunct_not_ws c hc)
        (by show ([c] : List Char) ≠ []; simp),
      firstSome_single (fun tok => f (stripTrailing tok))
        (t.data ++ (String.mk [c]).data)]
    show f (stripTrailing (t.data ++ [c])) = _
    rw [stripTrailing_append_punct t.data c hc]
    show _ = firstSome (fun tok => f (stripTrailing tok)) (tokenize t)
    rw [tokenize_wsfree t hws]
    by_cases ht : t.data = []
    · rw [if_pos ht, ht]
      exact hemp
    · rw [if_neg ht,
        firstSome_single (fun tok => f (stripTrailing tok)) t.data]
  refine ⟨?_, ?_, ?_, hpunct ',' (by decide), hpunct '!' (by decide)⟩
  · show firstSome (fun tok => f (stripTrailing tok))
        (tokenize ("before " ++ t)) = _
    rw [tokenize_before t,
      firstSome_cons_none (fun tok => f (stripTrailing tok))
        "before".data (tokenize t) hgb]
    rfl
  · show firstSome (fun tok => f (stripTrailing tok))
        (tokenize ("before " ++ t ++ " after")) = _
    rw [tokenize_before_after t hws,
      firstSome_cons_none (fun tok => f (stripTrailing tok))
        "before".data (tokenize t ++ ["after".data]) hgb,
      firstSome_append_none (fun tok => f (stripTrailing tok))
        (tokenize t) "after".data hga]
    rfl
  · show firstSome (fun tok => f (stripTrailing tok))
        (tokenize (t ++ " after")) = _
    rw [tokenize_after t hws,
      firstSome_append_none (fun tok => f (stripTrailing tok))
        (tokenize t) "after".data hga]
    rfl

theorem dropPrefixL_head_ne (p c : Char) (ps cs : List Char) (h : p ≠ c) :
    dropPrefixL (p :: ps) (c :: cs) = none := by
  simp [dropPrefixL, h]

theorem startsWithL_append_right (pat t x : List Char)
    (h : startsWithL pat t = true) : startsWithL pat (t ++ x) = true := by
  obtain ⟨r, hr⟩ := (startsWithL_iff pat t).mp h
  rw [hr, List.append_assoc]
  exact startsWithL_append_self _ _

theorem replaySlug_url_change (cs cs2 slug : List Char) (m : LinkMatch)
    (h : replaySlug cs slug = some m) :
    replaySlug cs2 slug = some ⟨normalizeUrl cs2, m.formattedText⟩ := by
  unfold replaySlug at h ⊢
  by_cases h1 : slug.contains '/' = true
  · rw [if_pos h1] at h
    exact absurd h (by simp)
  · rw [if_neg h1] at h
    rw [if_neg h1]
    cases h2 : breakAtDD slug with
    | none => rw [h2] at h; simp at h
    | some p =>
      obtain ⟨title, uuid⟩ := p
      simp only [h2] at h ⊢
      by_cases h3 : (isUuid uuid && !title.isEmpty) = true
      · rw [if_pos h3] at h
        rw [if_pos h3]
        simp only [Option.some.injEq] at h
        rw [← h]
      · rw [if_neg h3] at h
        simp at h

/-- C3: the generic URL matcher matches a token only if it is
scheme-qualified or www.-prefixed; the result keeps a scheme-qualified
token verbatim or prefixes https://, with null formatted text; a bare
domain plus path without scheme or www. never matches. -/
theorem c3_generic_url_matcher :
    (∀ cs m, genericMatchToken cs = some m →
      (startsWithL "http://".data cs = true
        ∨ startsWithL "https://".data cs = true
        ∨ startsWithL "www.".data cs = true)
      ∧ m.formattedText = none
      ∧ m.url = (if startsWithL "http".data cs
          then String.mk cs else String.mk ("https://".data ++ cs)))
    ∧ (∀ cs, startsWithL "http://".data cs = false →
        startsWithL "https://".data cs = false →
        startsWithL "www.".data cs = false →
        genericMatchToken cs = none)
    ∧ GenericUrlMatcher "en.wikipedia.org/wiki/New_York_City" = none
    ∧ GenericUrlMatcher "www.google.com"
        = some ⟨"https://www.google.com", none⟩
    ∧ GenericUrlMatcher "https://en.wikipedia.org/wiki/New_York_City"
        = some ⟨"https://en.wikipedia.org/wiki/New_York_City", none⟩ := by
  refine ⟨?_, ?_, by decide, by decide, by decide⟩
  · intro cs m h
    obtain ⟨hm, hpre⟩ := genericMatchToken_sound cs m h
    subst hm
    exact ⟨hpre, rfl, rfl⟩
  · intro cs h1 h2 h3
    unfold genericMatchToken
    rw [h1, h2, h3]
    rfl

/-- C3 witness: the general part of c3_generic_url_matcher evaluated at
the tokens of the test suite. -/
theorem c3_generic_url_matcher_witness :
    (⟨"https://www.google.com", none⟩ : LinkMatch).formattedText = none
    ∧ genericMatchToken "google.com".data = none :=
  ⟨(c3_generic_url_matcher.1 "www.google.com".data
      ⟨"https://www.google.com", none⟩ (by decide)).2.1,
   c3_generic_url_matcher.2.1 "google.com".data
      (by decide) (by decide) (by decide)⟩

/-- C4: the GitHub matcher recognizes github.com issue and pull links,
with or without scheme and www., allowing extra path segments or a query
string, producing "#{number} ({owner}/{repo})" and a normalized URL; it
rejects the bare host and one- or two-segment paths. -/
theorem c4_github_matcher :
    (∀ cs m, githubMatchToken cs = some m →
      ∃ owner repo num, owner ≠ [] ∧ repo ≠ [] ∧ isDigits num = true
        ∧ m.url = normalizeUrl cs
        ∧ m.formattedText = some (String.mk ("#".data ++ num ++ " (".data
            ++ owner ++ "/".data ++ repo ++ ")".data)))
    ∧ GitHubUrlMatcher "https://www.github.com/foo/bar/issues/123"
        = some ⟨"https://www.github.com/foo/bar/issues/123",
            some "#123 (foo/bar)"⟩
    ∧ GitHubUrlMatcher "github.com/foo/bar/issues/123?foo=bar"
        = some ⟨"https://github.com/foo/bar/issues/123?foo=bar",
            some "#123 (foo/bar)"⟩
    ∧ GitHubUrlMatcher "www.github.com/foo/bar/pull/123"
        = some ⟨"https://www.github.com/foo/bar/pull/123",
            some "#123 (foo/bar)"⟩
    ∧ GitHubUrlMatcher "github.com/foo/bar/pull/123/files?w=1"
        = some ⟨"https://github.com/foo/bar/pull/123/files?w=1",
            some "#123 (foo/bar)"⟩
    ∧ GitHubUrlMatcher "https://www.github.com" = none
    ∧ GitHubUrlMatcher "https://www.github.com/foo" = none
    ∧ GitHubUrlMatcher "https://www.github.com/foo/bar" = none :=
  ⟨githubMatchToken_sound, by decide, by decide, by decide, by decide,
   by decide, by decide, by decide⟩

/-- C4 witness: the general part of c4_github_matcher evaluated at a
concrete issue link. -/
theorem c4_github_matcher_witness :
    (⟨"https://github.com/foo/bar/issues/123", some "#123 (foo/bar)"⟩
        : LinkMatch).url
      = normalizeUrl "github.com/foo/bar/issues/123".data := by
  obtain ⟨o, r, n, _, _, _, hurl, _⟩ :=
    c4_github_matcher.1 "github.com/foo/bar/issues/123".data
      ⟨"https://github.com/foo/bar/issues/123", some "#123 (foo/bar)"⟩
      (by decide)
  exact hurl

/-- C5: the Replay matcher recognizes app.replay.io/recording/{slug}
links where the slug is a title, a double hyphen and a UUID-shaped
suffix, with an optional query string, producing "Replay: {title with
hyphens as spaces}"; it rejects the bare host and unrelated paths. -/
theorem c5_replay_matcher :
    (∀ cs m, replayMatchToken cs = some m →
      ∃ rest title uuid,
        dropScheme cs = "app.replay.io/recording/".data ++ rest
        ∧ (breakAtChar '?' rest).1 = title ++ '-' :: '-' :: uuid
        ∧ isUuid uuid = true ∧ title ≠ []
        ∧ m.url = normalizeUrl cs
        ∧ m.formattedText = some (String.mk ("Replay: ".data
            ++ title.map (fun c => if c = '-' then ' ' else c))))
    ∧ ReplayUrlMatcher
        "https://app.replay.io/recording/test-title--11111111-2222-3333-4444-555555555555"
        = some ⟨"https://app.replay.io/recording/test-title--11111111-2222-3333-4444-555555555555",
            some "Replay: test title"⟩
    ∧ ReplayUrlMatcher
        "app.replay.io/recording/test-title--11111111-2222-3333-4444-555555555555?point=1234567890"
        = some ⟨"https://app.replay.io/recording/test-title--11111111-2222-3333-4444-555555555555?point=1234567890",
            some "Replay: test title"⟩
    ∧ ReplayUrlMatcher "https://app.replay.io/" = none
    ∧ ReplayUrlMatcher "app.replay.io" = none
    ∧ ReplayUrlMatcher "app.replay.io/team/me/recordings" = none
    ∧ ReplayUrlMatcher "https://app.replay.io/team/me/recordings" = none :=
  ⟨replayMatchToken_sound, by decide, by decide, by decide, by decide,
   by decide, by decide⟩

/-- C5 witness: the general part of c5_replay_matcher evaluated at a
concrete recording link. -/
theorem c5_replay_matcher_witness :
    (⟨"https://app.replay.io/recording/test-title--11111111-2222-3333-4444-555555555555",
        some "Replay: test title"⟩ : LinkMatch).url
      = normalizeUrl
          "app.replay.io/recording/test-title--11111111-2222-3333-4444-555555555555".data := by
  obtain ⟨rest, title, uuid, _, _, _, _, hurl, _⟩ :=
    c5_replay_matcher.1
      "app.replay.io/recording/test-title--11111111-2222-3333-4444-555555555555".data
      ⟨"https://app.replay.io/recording/test-title--11111111-2222-3333-4444-555555555555",
        some "Replay: test title"⟩
      (by decide)
  exact hurl

/-- C6: the email matcher maps every token of shape local@domain.tld to
a mailto URL with null formatted text, and only such tokens match; the
suite's negative tokens yield null. -/
theorem c6_email_matcher :
    (∀ l d, validLocal l = true → validDomain d = true →
      emailMatchToken (l ++ '@' :: d)
        = some ⟨String.mk ("mailto:".data ++ (l ++ '@' :: d)), none⟩)
    ∧ (∀ cs m, emailMatchToken cs = some m →
        m = ⟨String.mk ("mailto:".data ++ cs), none⟩
        ∧ ∃ l d, cs = l ++ '@' :: d ∧ validLocal l = true
            ∧ validDomain d = true)
    ∧ EmailUrlMatcher "bvaughn@replay.io"
        = some ⟨"mailto:bvaughn@replay.io", none⟩
    ∧ EmailUrlMatcher "brian@replay" = none
    ∧ EmailUrlMatcher "@brian" = none
    ∧ EmailUrlMatcher "@brian.vaughn" = none
    ∧ EmailUrlMatcher "foo bar" = none :=
  ⟨emailMatchToken_complete, emailMatchToken_sound, by decide, by decide,
   by decide, by decide, by decide⟩

/-- C6 witness: c6_email_matcher's completeness direction instantiated at
bvaughn@replay.io. -/
theorem c6_email_matcher_witness :
    emailMatchToken ("bvaughn".data ++ '@' :: "replay.io".data)
      = some ⟨String.mk ("mailto:".data
          ++ ("bvaughn".data ++ '@' :: "replay.io".data)), none⟩ :=
  c6_email_matcher.1 "bvaughn".data "replay.io".data (by decide) (by decide)

/-- C8: every matcher and the registry are total functions over strings:
the result is always null or a LinkMatch, and the empty string yields
null everywhere. -/
theorem c8_totality :
    (∀ text, registryMatch text = none
        ∨ ∃ m, registryMatch text = some m)
    ∧ registryMatch "" = none
    ∧ EmailUrlMatcher "" = none ∧ GenericUrlMatcher "" = none
    ∧ GitHubUrlMatcher "" = none ∧ ReplayUrlMatcher "" = none := by
  refine ⟨?_, by decide, by decide, by decide, by decide, by decide⟩
  intro text
  cases h : registryMatch text with
  | none => exact Or.inl rfl
  | some m => exact Or.inr ⟨m, rfl⟩

/-- C2: whenever any matcher or the registry returns a match, its url
starts with http://, https:// or mailto:; in particular a schemeless
generic token gets a synthesized https:// prefix, never the schemeless
form. -/
theorem c2_url_scheme_qualified :
    (∀ text m,
      registryMatch text = some m ∨ EmailUrlMatcher text = some m
        ∨ GenericUrlMatcher text = some m
        ∨ GitHubUrlMatcher text = some m
        ∨ ReplayUrlMatcher text = some m →
      schemeQualified m.url = true)
    ∧ (∀ cs m, genericMatchToken cs = some m →
        startsWithL "http".data cs = false →
        m.url = String.mk ("https://".data ++ cs))
    ∧ GenericUrlMatcher "www.google.com"
        = some ⟨"https://www.google.com", none⟩ := by
  refine ⟨?_, ?_, by decide⟩
  · intro text m h
    have hdisj : EmailUrlMatcher text = some m
        ∨ GenericUrlMatcher text = some m
        ∨ GitHubUrlMatcher text = some m
        ∨ ReplayUrlMatcher text = some m := by
      rcases h with h | h | h | h | h
      · rcases registryMatch_cases text m h with h1 | h1 | h1 | h1
        · exact Or.inr (Or.inr (Or.inr h1))
        · exact Or.inr (Or.inr (Or.inl h1))
        · exact Or.inl h1
        · exact Or.inr (Or.inl h1)
      · exact Or.inl h
      · exact Or.inr (Or.inl h)
      · exact Or.inr (Or.inr (Or.inl h))
      · exact Or.inr (Or.inr (Or.inr h))
    rcases hdisj with h | h | h | h
    · obtain ⟨t, ht⟩ := runMatcher_eq_some emailMatchToken text m h
      exact emailMatchToken_url _ _ ht
    · obtain ⟨t, ht⟩ := runMatcher_eq_some genericMatchToken text m h
      exact genericMatchToken_url _ _ ht
    · obtain ⟨t, ht⟩ := runMatcher_eq_some githubMatchToken text m h
      exact githubMatchToken_url _ _ ht
    · obtain ⟨t, ht⟩ := runMatcher_eq_some replayMatchToken text m h
      exact replayMatchToken_url _ _ ht
  · intro cs m h hh
    obtain ⟨hm, -⟩ := genericMatchToken_sound cs m h
    subst hm
    show normalizeUrl cs = _
    exact normalizeUrl_eq_of_not_http cs hh

/-- C2 witness: c2_url_scheme_qualified applied to a registry match on an
email and to the schemeless token www.google.com. -/
theorem c2_url_scheme_qualified_witness :
    schemeQualified (⟨"mailto:bvaughn@replay.io", none⟩ : LinkMatch).url
      = true
    ∧ (⟨"https://www.google.com", none⟩ : LinkMatch).url
      = String.mk ("https://".data ++ "www.google.com".data) :=
  ⟨c2_url_scheme_qualified.1 "bvaughn@replay.io"
      ⟨"mailto:bvaughn@replay.io", none⟩ (Or.inl (by decide)),
   c2_url_scheme_qualified.2.1 "www.google.com".data
      ⟨"https://www.google.com", none⟩ (by decide) (by decide)⟩

/-- C7: for each registered matcher, wrapping the input in the leading
text "before ", the trailing text " after", or the trailing punctuation
"," or "!" does not change the result on any whitespace-free token. -/
theorem c7_wrapping_invariance :
    ∀ f ∈ MATCHERS_ARRAY, ∀ t : String,
      (∀ c ∈ t.data, isWsChar c = false) →
      f ("before " ++ t) = f t
      ∧ f ("before " ++ t ++ " after") = f t
      ∧ f (t ++ " after") = f t
      ∧ f (t ++ ",") = f t
      ∧ f (t ++ "!") = f t := by
  intro f hf t hws
  simp only [MATCHERS_ARRAY, List.mem_cons, List.not_mem_nil,
    or_false] at hf
  rcases hf with rfl | rfl | rfl | rfl
  · exact runMatcher_wrap replayMatchToken
      (by decide) (by decide) (by decide) t hws
  · exact runMatcher_wrap githubMatchToken
      (by decide) (by decide) (by decide) t hws
  · exact runMatcher_wrap emailMatchToken
      (by decide) (by decide) (by decide) t hws
  · exact runMatcher_wrap genericMatchToken
      (by decide) (by decide) (by decide) t hws

/-- C7 witness: c7_wrapping_invariance applied to the generic matcher on
www.google.com. -/
theorem c7_wrapping_invariance_witness :
    GenericUrlMatcher ("before " ++ "www.google.com")
      = GenericUrlMatcher "www.google.com"
    ∧ GenericUrlMatcher ("www.google.com" ++ "!")
      = GenericUrlMatcher "www.google.com" := by
  have h := c7_wrapping_invariance GenericUrlMatcher
    (by simp [MATCHERS_ARRAY]) "www.google.com" (by decide)
  exact ⟨h.1, h.2.2.2.2⟩

/-- C1 counterexample: an input containing both an issue-tracker-shaped
token and a recording-shaped token resolves via the Replay matcher, so
the first non-null matcher is not always the GitHub matcher for inputs
containing an issue-tracker-shaped token. -/
theorem c1_registry_priority_counterexample :
    ¬ (∀ text : String, GitHubUrlMatcher text ≠ none →
        List.find? (fun f => (f text).isSome) MATCHERS_ARRAY
          = some GitHubUrlMatcher) := by
  intro hall
  have h1 := hall
    "github.com/foo/bar/issues/1 app.replay.io/recording/test--11111111-2222-3333-4444-555555555555"
    (by decide)
  have h2 : List.find? (fun f =>
      (f "github.com/foo/bar/issues/1 app.replay.io/recording/test--11111111-2222-3333-4444-555555555555").isSome)
      MATCHERS_ARRAY = some ReplayUrlMatcher := by
    show List.find? _ (ReplayUrlMatcher
      :: [GitHubUrlMatcher, EmailUrlMatcher, GenericUrlMatcher]) = _
    exact List.find?_cons_of_pos _ (by decide)
  rw [h1] at h2
  have h3 := congrFun (Option.some.inj h2)
    "app.replay.io/recording/test--11111111-2222-3333-4444-555555555555"
  rw [show GitHubUrlMatcher
        "app.replay.io/recording/test--11111111-2222-3333-4444-555555555555"
        = none from by decide,
      show ReplayUrlMatcher
        "app.replay.io/recording/test--11111111-2222-3333-4444-555555555555"
        = some ⟨"https://app.replay.io/recording/test--11111111-2222-3333-4444-555555555555",
            some "Replay: test"⟩ from by decide] at h3
  exact Option.noConfusion h3

/-- C1 (amended): the registry is the fixed list [Replay, GitHub, Email,
Generic] and returns the first non-null result (null when all fail); an
input with a recording-shaped token always resolves via the Replay
matcher, and an input with an issue-tracker-shaped token and no
recording-shaped token always resolves via the GitHub matcher. -/
theorem c1_registry_priority :
    MATCHERS_ARRAY
      = [ReplayUrlMatcher, GitHubUrlMatcher, EmailUrlMatcher,
          GenericUrlMatcher]
    ∧ (∀ text m, ReplayUrlMatcher text = some m →
        registryMatch text = some m)
    ∧ (∀ text, ReplayUrlMatcher text ≠ none →
        List.find? (fun f => (f text).isSome) MATCHERS_ARRAY
          = some ReplayUrlMatcher)
    ∧ (∀ text, GitHubUrlMatcher text ≠ none →
        ReplayUrlMatcher text = none →
        List.find? (fun f => (f text).isSome) MATCHERS_ARRAY
          = some GitHubUrlMatcher)
    ∧ (∀ text, ReplayUrlMatcher text = none →
        GitHubUrlMatcher text = none → EmailUrlMatcher text = none →
        GenericUrlMatcher text = none → registryMatch text = none) := by
  refine ⟨rfl, ?_, ?_, ?_, ?_⟩
  · intro text m h
    unfold registryMatch MATCHERS_ARRAY
    rw [runRegistry_cons, h]
  · intro text h
    show List.find? _ (ReplayUrlMatcher
      :: [GitHubUrlMatcher, EmailUrlMatcher, GenericUrlMatcher]) = _
    exact List.find?_cons_of_pos _ (Option.isSome_iff_ne_none.mpr h)
  · intro text hg hr
    have hstep : List.find? (fun f => (f text).isSome) (ReplayUrlMatcher
          :: [GitHubUrlMatcher, EmailUrlMatcher, GenericUrlMatcher])
        = List.find? (fun f => (f text).isSome)
            [GitHubUrlMatcher, EmailUrlMatcher, GenericUrlMatcher] :=
      List.find?_cons_of_neg _ (by simp [hr])
    show List.find? _ (ReplayUrlMatcher
      :: [GitHubUrlMatcher, EmailUrlMatcher, GenericUrlMatcher]) = _
    rw [hstep]
    exact List.find?_cons_of_pos _ (Option.isSome_iff_ne_none.mpr hg)
  · intro text h1 h2 h3 h4
    unfold registryMatch MATCHERS_ARRAY
    simp [runRegistry, h1, h2, h3, h4]

/-- C1 witness: c1_registry_priority applied at the test suite's
priority inputs. -/
theorem c1_registry_priority_witness :
    registryMatch "before https://app.replay.io/recording/test-title--11111111-2222-3333-4444-555555555555 after"
      = some ⟨"https://app.replay.io/recording/test-title--11111111-2222-3333-4444-555555555555",
          some "Replay: test title"⟩
    ∧ List.find? (fun f =>
        (f "before https://app.replay.io/recording/test-title--11111111-2222-3333-4444-555555555555 after").isSome)
        MATCHERS_ARRAY = some ReplayUrlMatcher
    ∧ List.find? (fun f =>
        (f "before https://www.github.com/foo/bar/issues/123 after").isSome)
        MATCHERS_ARRAY = some GitHubUrlMatcher
    ∧ registryMatch "foo bar" = none :=
  ⟨c1_registry_priority.2.1 _ _ (by decide),
   c1_registry_priority.2.2.1 _ (by decide),
   c1_registry_priority.2.2.2.1 _ (by decide) (by decide),
   c1_registry_priority.2.2.2.2 _ (by decide) (by decide) (by decide)
     (by decide)⟩

/-- C9: appending a query string to a matching recording-link token keeps
the match, appends the query verbatim to the normalized url, and leaves
the formatted text unchanged. -/
theorem c9_replay_query_string :
    ∀ (t q : List Char) (m : LinkMatch), '?' ∉ t →
      replayMatchToken t = some m →
      replayMatchToken (t ++ '?' :: q)
        = some ⟨String.mk (m.url.data ++ '?' :: q), m.formattedText⟩ := by
  intro t q m hq h
  unfold replayMatchToken at h
  split at h
  next => exact absurd h (by simp)
  next rest heq =>
    have hds := (dropPrefixL_eq_some _ _ _).mp heq
    have hqds : '?' ∉ dropScheme t := by
      rcases dropScheme_cases t with ⟨r, hts, hr⟩ | ⟨r, hts, hr⟩ | hid
      · rw [hr]
        intro hmem
        exact hq (by rw [hts]; exact List.mem_append_right _ hmem)
      · rw [hr]
        intro hmem
        exact hq (by rw [hts]; exact List.mem_append_right _ hmem)
      · rw [hid]; exact hq
    have hqrest : '?' ∉ rest := fun hmem =>
      hqds (by rw [hds]; exact List.mem_append_right _ hmem)
    have hlen24 : 24 ≤ (dropScheme t).length := by
      rw [hds, List.length_append,
        show ("app.replay.io/recording/".data).length = 24 from rfl]
      exact Nat.le_add_right _ _
    have hds2 : dropScheme (t ++ '?' :: q) = dropScheme t ++ '?' :: q := by
      rcases dropScheme_cases t with ⟨r, hts, hr⟩ | ⟨r, hts, hr⟩ | hid
      · rw [hr, hts, List.append_assoc]
        unfold dropScheme
        simp only [dropPrefixL_append_self]
      · have hhttps : dropPrefixL "https://".data (t ++ '?' :: q)
            = none := by
          rw [hts, List.append_assoc,
            show "http://".data ++ (r ++ '?' :: q)
              = 'h' :: 't' :: 't' :: 'p' :: ':' :: '/' :: '/'
                  :: (r ++ '?' :: q) from rfl,
            show "https://".data
              = 'h' :: 't' :: 't' :: 'p' :: 's' :: ':' :: '/' :: '/'
                  :: ([] : List Char) from rfl]
          simp [dropPrefixL]
        rw [hr]
        unfold dropScheme
        simp only [hhttps]
        rw [hts, List.append_assoc]
        simp only [dropPrefixL_append_self]
      · have ht2 : t = "app.replay.io/recording/".data ++ rest := by
          rw [← hid]; exact hds
        have h5 : dropPrefixL "https://".data (t ++ '?' :: q) = none := by
          rw [ht2, List.append_assoc,
            show "app.replay.io/recording/".data ++ (rest ++ '?' :: q)
              = 'a' :: ("pp.replay.io/recording/".data
                  ++ (rest ++ '?' :: q)) from rfl,
            show "https://".data = 'h' :: "ttps://".data from rfl]
          exact dropPrefixL_head_ne 'h' 'a' _ _ (by decide)
        have h6 : dropPrefixL "http://".data (t ++ '?' :: q) = none := by
          rw [ht2, List.append_assoc,
            show "app.replay.io/recording/".data ++ (rest ++ '?' :: q)
              = 'a' :: ("pp.replay.io/recording/".data
                  ++ (rest ++ '?' :: q)) from rfl,
            show "http://".data = 'h' :: "ttp://".data from rfl]
          exact dropPrefixL_head_ne 'h' 'a' _ _ (by decide)
        rw [hid]
        unfold dropScheme
        simp only [h5, h6]
    have hAq : dropPrefixL "app.replay.io/recording/".data
        (dropScheme (t ++ '?' :: q)) = some (rest ++ '?' :: q) := by
      rw [hds2]
      apply (dropPrefixL_eq_some _ _ _).mpr
      rw [hds, List.append_assoc]
    rw [breakAtChar_no_sep '?' rest hqrest] at h
    show replayMatchToken (t ++ '?' :: q) = _
    unfold replayMatchToken
    simp only [hAq]
    rw [breakAtChar_sep_append '?' rest q hqrest]
    show replaySlug (t ++ '?' :: q) rest
      = some ⟨String.mk (m.url.data ++ '?' :: q), m.formattedText⟩
    rw [replaySlug_url_change t (t ++ '?' :: q) rest m h]
    obtain ⟨title2, uuid2, _, _, _, hurl, -⟩ := replaySlug_sound t rest m h
    have hnorm : normalizeUrl (t ++ '?' :: q)
        = String.mk (m.url.data ++ '?' :: q) := by
      rw [hurl]
      by_cases hh : startsWithL "http".data t = true
      · rw [normalizeUrl_eq_of_http t hh,
          normalizeUrl_eq_of_http (t ++ '?' :: q)
            (startsWithL_append_right _ _ _ hh)]
      · have hh2 : startsWithL "http".data t = false := by
          cases hcc : startsWithL "http".data t
          · rfl
          · exact absurd hcc hh
        have hnonet : dropPrefixL "http".data t = none := by
          cases hx : dropPrefixL "http".data t with
          | none => rfl
          | some r2 =>
            exfalso
            have hsw : startsWithL "http".data t = true := by
              unfold startsWithL; rw [hx]; rfl
            rw [hsw] at hh2
            exact Bool.noConfusion hh2
        have hlent : 4 ≤ t.length := by
          rcases dropScheme_cases t with ⟨r, hts, hr⟩ | ⟨r, hts, hr⟩ | hid
          · rw [hts, List.length_append]
            have h24 := hlen24
            rw [hr] at h24
            omega
          · rw [hts, List.length_append]
            have h24 := hlen24
            rw [hr] at h24
            omega
          · rw [hid] at hlen24
            omega
        have hnone2 : dropPrefixL "http".data (t ++ '?' :: q) = none := by
          apply dropPrefixL_none_append
          · rw [show ("http".data).length = 4 from rfl]
            exact hlent
          · exact hnonet
        have hsw2 : startsWithL "http".data (t ++ '?' :: q) = false := by
          unfold startsWithL
          rw [hnone2]
          rfl
        rw [normalizeUrl_eq_of_not_http t hh2,
          normalizeUrl_eq_of_not_http _ hsw2,
          show (String.mk ("https://".data ++ t)).data
            = "https://".data ++ t from rfl,
          List.append_assoc]
    rw [hnorm]

/-- C9 witness: c9_replay_query_string applied to the suite's recording
link and query string. -/
theorem c9_replay_query_string_witness :
    replayMatchToken
      ("app.replay.io/recording/test-title--11111111-2222-3333-4444-555555555555".data
        ++ '?' :: "point=1234567890".data)
      = some ⟨String.mk
          ((⟨"https://app.replay.io/recording/test-title--11111111-2222-3333-4444-555555555555",
              some "Replay: test title"⟩ : LinkMatch).url.data
            ++ '?' :: "point=1234567890".data),
          (⟨"https://app.replay.io/recording/test-title--11111111-2222-3333-4444-555555555555",
              some "Replay: test title"⟩ : LinkMatch).formattedText⟩ :=
  c9_replay_query_string _ _ _ (by decide) (by decide)

/-- C10: the generic matcher accepts a scheme-qualified host with a
digit-only label and preserves the trailing slash verbatim. -/
theorem c10_digit_label_trailing_slash :
    GenericUrlMatcher "https://portal.311.nyc.gov/"
      = some ⟨"https://portal.311.nyc.gov/", none⟩
    ∧ genericMatchToken "https://portal.311.nyc.gov/".data
      = some ⟨"https://portal.311.nyc.gov/", none⟩ :=
  ⟨by decide, by decide⟩
